import Mathlib

/-!
Verification of the portfolio-rebalancing engine in
`tests/performance/rebalance_benchmark.py`.

Shallow embedding conventions:
* Python/NumPy floating point numbers are modelled as exact rationals (ℚ).
  Both strategies apply the same arithmetic operations to the same inputs,
  so exact arithmetic mirrors the float computation faithfully for every
  claim considered here.
* Python dicts (`current_positions`, `target_allocation`) become association
  lists `List (String × ℚ)` in insertion order; a Python dict has unique
  keys, which appears as a `Nodup` hypothesis where a proof needs it.
* The process-wide NumPy generator (`np.random.random()`) becomes a draw
  stream `g : ℕ → ℚ`: the k-th draw consumed by a rebalance call is `g k`.
  Thread interleaving in the parallel strategy permutes which draw each
  order receives, so theorems quantify over arbitrary streams and never
  constrain how draws map to entries beyond one draw per prepared order.
* `ThreadPoolExecutor.map` collects results in the order of its input
  iterables (documented library semantics), so the fan-out phase is a map
  over the filtered entries.
-/

/-- `d.get(k, 0.0)` on a Python dict represented as an association list. -/
def dictGet (d : List (String × ℚ)) (k : String) : ℚ :=
  (List.lookup k d).getD 0

/-- The order record produced by `_prepare_order` in either class. -/
structure Order where
  symbol : String
  side : String
  quantity : ℚ
  current_value : ℚ
  target_value : ℚ
  risk_score : ℚ
deriving DecidableEq

/-- `BaselineRebalancer._calculate_risk`: `np.random.random() * quantity * 0.01`,
with the generator draw `r` passed explicitly.  The `symbol` argument is
accepted and ignored, exactly as in the source. -/
def BaselineRebalancer.calculate_risk (r : ℚ) (_symbol : String) (quantity : ℚ) : ℚ :=
  r * quantity * (1 / 100)

/-- `BaselineRebalancer._prepare_order`.  `r` is the generator draw consumed
by the embedded `_calculate_risk` call. -/
def BaselineRebalancer.prepare_order (r : ℚ) (symbol : String)
    (diff current_value target_value : ℚ) : Order :=
  let side := if 0 < diff then "buy" else "sell"
  let quantity := |diff| / 100
  let risk_score := BaselineRebalancer.calculate_risk r symbol quantity
  { symbol := symbol, side := side, quantity := quantity,
    current_value := current_value, target_value := target_value,
    risk_score := risk_score }

/-- The loop of `BaselineRebalancer.rebalance`, with `k` the index of the
next unconsumed draw of the shared generator (one draw per emitted order). -/
def BaselineRebalancer.rebalanceFrom (g : ℕ → ℚ) (current_positions : List (String × ℚ))
    (total_value : ℚ) : List (String × ℚ) → ℕ → List Order
  | [], _ => []
  | (symbol, target_pct) :: rest, k =>
    let current_value := dictGet current_positions symbol
    let target_value := total_value * target_pct
    let diff := target_value - current_value
    if 1 < |diff| then
      BaselineRebalancer.prepare_order (g k) symbol diff current_value target_value
        :: BaselineRebalancer.rebalanceFrom g current_positions total_value rest (k + 1)
    else
      BaselineRebalancer.rebalanceFrom g current_positions total_value rest k

/-- `BaselineRebalancer.rebalance`: sequential iteration over
`target_allocation.items()` in insertion order. -/
def BaselineRebalancer.rebalance (g : ℕ → ℚ) (current_positions target_allocation : List (String × ℚ))
    (total_value : ℚ) : List Order :=
  BaselineRebalancer.rebalanceFrom g current_positions total_value target_allocation 0

/-- `OptimizedRebalancer._calculate_risk_vectorized`:
`np.random.random() * quantity * 0.01` with the draw `r` explicit. -/
def OptimizedRebalancer.calculate_risk_vectorized (r : ℚ) (quantity : ℚ) : ℚ :=
  r * quantity * (1 / 100)

/-- `OptimizedRebalancer._prepare_order` (same logic as baseline). -/
def OptimizedRebalancer.prepare_order (r : ℚ) (symbol : String)
    (diff current_value target_value : ℚ) : Order :=
  let side := if 0 < diff then "buy" else "sell"
  let quantity := |diff| / 100
  let risk_score := OptimizedRebalancer.calculate_risk_vectorized r quantity
  { symbol := symbol, side := side, quantity := quantity,
    current_value := current_value, target_value := target_value,
    risk_score := risk_score }

/-- One index of the parallel arrays built in the vectorized phase of
`OptimizedRebalancer.rebalance`: the i-th entries of `symbols`,
`diffs`, `current_values`, `target_values`. -/
structure Row where
  symbol : String
  diff : ℚ
  current_value : ℚ
  target_value : ℚ
deriving DecidableEq

/-- The vectorized phase of `OptimizedRebalancer.rebalance`, fused rowwise:
`symbols = list(target_allocation.keys())`,
`current_values[i] = current_positions.get(symbols[i], 0.0)`,
`target_pcts[i] = target_allocation[symbols[i]]`,
`target_values = total_value * target_pcts`, `diffs = target_values - current_values`.
The NumPy elementwise operations act index by index, which is exactly this
map over the key list. -/
def OptimizedRebalancer.rows (current_positions target_allocation : List (String × ℚ))
    (total_value : ℚ) : List Row :=
  (target_allocation.map Prod.fst).map (fun s =>
    let current_value := dictGet current_positions s
    let target_pct := dictGet target_allocation s
    let target_value := total_value * target_pct
    { symbol := s, diff := target_value - current_value,
      current_value := current_value, target_value := target_value })

/-- `OptimizedRebalancer.rebalance`: boolean mask `abs(diffs) > 1.0`; early
return `[]` when `not mask.any()`; otherwise project the arrays down to the
masked subset and map `_prepare_order` over them (`executor.map` yields its
results in input order; entry `i` of the filtered batch receives the draw
`g i`, the stream being arbitrary). -/
def OptimizedRebalancer.rebalance (g : ℕ → ℚ) (current_positions target_allocation : List (String × ℚ))
    (total_value : ℚ) : List Order :=
  let rs := OptimizedRebalancer.rows current_positions target_allocation total_value
  if rs.all (fun row => decide (|row.diff| ≤ 1)) then
    []
  else
    let filtered := rs.filter (fun row => decide (1 < |row.diff|))
    (filtered.enum).map (fun p =>
      OptimizedRebalancer.prepare_order (g p.1) p.2.symbol p.2.diff p.2.current_value p.2.target_value)

/-- The fields of an order that are independent of the risk draw:
(symbol, side, quantity, current_value, target_value). -/
def orderKey (o : Order) : String × String × ℚ × ℚ × ℚ :=
  (o.symbol, o.side, o.quantity, o.current_value, o.target_value)

/-- The order key determined by a row of the vectorized phase. -/
def rowKey (row : Row) : String × String × ℚ × ℚ × ℚ :=
  (row.symbol, if 0 < row.diff then "buy" else "sell", |row.diff| / 100,
   row.current_value, row.target_value)

/-- The row the sequential loop computes from one `(symbol, target_pct)`
entry of `target_allocation.items()`. -/
def baselineRow (current_positions : List (String × ℚ)) (total_value : ℚ)
    (e : String × ℚ) : Row :=
  let current_value := dictGet current_positions e.1
  let target_value := total_value * e.2
  { symbol := e.1, diff := target_value - current_value,
    current_value := current_value, target_value := target_value }

/-- Concrete draw stream: every generator draw is 0. -/
def gZero : ℕ → ℚ := fun _ => 0

/-- Scenario A positions. -/
def posA : List (String × ℚ) := [("AAA", 1000)]

/-- Scenario A target allocation. -/
def tgtA : List (String × ℚ) := [("AAA", 1/2), ("BBB", 1/2)]

/-- Modelled from the spec wording of claim C2 (the sequential algorithm as
described): a left fold over the target allocation entries which computes
current_value, target_value and diff, emits nothing when `|diff| ≤ 1`, and
otherwise appends the synthesized order to the accumulated sequence.  The
second accumulator component counts the generator draws consumed so far. -/
def SeqSpec.step (g : ℕ → ℚ) (positions : List (String × ℚ)) (total_value : ℚ)
    (acc : List Order × ℕ) (e : String × ℚ) : List Order × ℕ :=
  let current_value := dictGet positions e.1
  let target_value := total_value * e.2
  let diff := target_value - current_value
  if |diff| ≤ 1 then acc
  else (acc.1 ++ [BaselineRebalancer.prepare_order (g acc.2) e.1 diff current_value target_value],
        acc.2 + 1)

/-- Modelled from the spec wording of claim C2: the returned batch is exactly
the accumulated sequence of the fold. -/
def SeqSpec.rebalance (g : ℕ → ℚ) (positions targets : List (String × ℚ))
    (total_value : ℚ) : List Order :=
  (targets.foldl (SeqSpec.step g positions total_value) ([], 0)).1

/-- `speedup = ((baseline_time - optimized_time) / baseline_time) * 100`
from `main`. -/
def speedup (baseline_time optimized_time : ℚ) : ℚ :=
  ((baseline_time - optimized_time) / baseline_time) * 100

/-- The verdict `main` derives from the two measured averages: whether PASS
is reported, and the value the `main` callback returns (`return 0` on the
PASS branch, `return 1` on the FAIL branch).  Whether that return value ever
reaches the operating system is a separate question, settled by
`clickStandaloneExit` below. -/
structure BenchVerdict where
  passed : Bool
  ret : ℕ
deriving DecidableEq

/-- The comparison at the end of `main`, taking the two measured average
durations as inputs (the wall-clock measurement itself is outside the
embedding): PASS and return 0 when `speedup >= 25.0`, else FAIL and
return 1. -/
def mainVerdict (baseline_time optimized_time : ℚ) : BenchVerdict :=
  let s := speedup baseline_time optimized_time
  if 25 ≤ s then { passed := true, ret := 0 }
  else { passed := false, ret := 1 }

/-- The exit status click's standalone mode produces for a command callback
that completes normally returning `rv`.  `main` is decorated with
`@click.command()`, so calling `main(...)` enters `BaseCommand.main` in
standalone mode, which discards the callback's return value (its source
notes it is not safe to `ctx.exit(rv)` there) and calls `ctx.exit()`: the
process exits 0 regardless of `rv`.  The surrounding `exit(main())` never
receives a value because `SystemExit` is raised inside the call. -/
def clickStandaloneExit (_rv : ℕ) : ℕ := 0

/-- The process exit status of a benchmark run with the given measured
averages: the click wrapper applied to `main`'s return value. -/
def processExitStatus (baseline_time optimized_time : ℚ) : ℕ :=
  clickStandaloneExit (mainVerdict baseline_time optimized_time).ret

/-- The state visible to a rebalance call: the caller's two mappings and the
sizing scalar, the two rebalancer objects' own fields, and the position of
the process-wide generator (the only state the calls actually advance, one
draw per prepared order). -/
structure ProgramState where
  current_positions : List (String × ℚ)
  target_allocation : List (String × ℚ)
  total_value : ℚ
  baseline_portfolio_size : ℕ
  optimized_portfolio_size : ℕ
  n_workers : ℕ
  rng_index : ℕ
deriving DecidableEq

/-- The sequential loop of `BaselineRebalancer.rebalance` as a state
transformer: it reads the positions and total value from the state and
consumes one generator draw per emitted order; the source contains no
assignment to any other state. -/
def BaselineRebalancer.rebalanceFromS (g : ℕ → ℚ) :
    List (String × ℚ) → ProgramState → List Order × ProgramState
  | [], st => ([], st)
  | (symbol, target_pct) :: rest, st =>
    let current_value := dictGet st.current_positions symbol
    let target_value := st.total_value * target_pct
    let diff := target_value - current_value
    if 1 < |diff| then
      let o := BaselineRebalancer.prepare_order (g st.rng_index) symbol diff
        current_value target_value
      let res := BaselineRebalancer.rebalanceFromS g rest
        { st with rng_index := st.rng_index + 1 }
      (o :: res.1, res.2)
    else
      BaselineRebalancer.rebalanceFromS g rest st

/-- `BaselineRebalancer.rebalance` as a state transformer. -/
def BaselineRebalancer.rebalanceS (g : ℕ → ℚ) (st : ProgramState) :
    List Order × ProgramState :=
  BaselineRebalancer.rebalanceFromS g st.target_allocation st

/-- `OptimizedRebalancer.rebalance` as a state transformer: the vectorized
phase is pure; the fan-out consumes one draw per filtered entry. -/
def OptimizedRebalancer.rebalanceS (g : ℕ → ℚ) (st : ProgramState) :
    List Order × ProgramState :=
  let rs := OptimizedRebalancer.rows st.current_positions st.target_allocation st.total_value
  if rs.all (fun row => decide (|row.diff| ≤ 1)) then ([], st)
  else
    let filtered := rs.filter (fun row => decide (1 < |row.diff|))
    let orders := (filtered.enum).map (fun p =>
      OptimizedRebalancer.prepare_order (g (st.rng_index + p.1)) p.2.symbol p.2.diff
        p.2.current_value p.2.target_value)
    (orders, { st with rng_index := st.rng_index + filtered.length })

/-- Looking up in the empty dict yields the default 0. -/
theorem dictGet_nil (k : String) : dictGet [] k = 0 := rfl

/-- One lookup step on an association list. -/
theorem dictGet_cons (k a : String) (b : ℚ) (d : List (String × ℚ)) :
    dictGet ((a, b) :: d) k = if k = a then b else dictGet d k := by
  unfold dictGet
  rw [List.lookup_cons]
  by_cases h : k = a
  · simp [h]
  · simp [h, beq_eq_false_iff_ne.mpr h]

/-- The key fields of a synthesized baseline order are determined by the row. -/
theorem orderKey_prepare_base (r : ℚ) (s : String) (d cv tv : ℚ) :
    orderKey (BaselineRebalancer.prepare_order r s d cv tv)
      = (s, if 0 < d then "buy" else "sell", |d| / 100, cv, tv) := rfl

/-- The key fields of a synthesized optimized order are determined by the row. -/
theorem orderKey_prepare_opt (r : ℚ) (s : String) (d cv tv : ℚ) :
    orderKey (OptimizedRebalancer.prepare_order r s d cv tv)
      = (s, if 0 < d then "buy" else "sell", |d| / 100, cv, tv) := rfl

/-- The sequential loop, in key fields, is the threshold filter followed by
per-row synthesis, independent of the draw counter. -/
theorem baseline_keys_from (g : ℕ → ℚ) (pos : List (String × ℚ)) (tv : ℚ)
    (tgt : List (String × ℚ)) :
    ∀ (k : ℕ),
      (BaselineRebalancer.rebalanceFrom g pos tv tgt k).map orderKey
        = ((tgt.map (baselineRow pos tv)).filter
            (fun row => decide (1 < |row.diff|))).map rowKey := by
  induction tgt with
  | nil => intro k; rfl
  | cons e rest ih =>
    intro k
    obtain ⟨s, p⟩ := e
    by_cases h : 1 < |tv * p - dictGet pos s|
    · simp only [BaselineRebalancer.rebalanceFrom, List.map_cons, List.filter_cons,
        baselineRow, if_pos h, decide_eq_true_eq, h, if_true]
      exact List.cons_eq_cons.mpr ⟨rfl, ih (k + 1)⟩
    · simp only [BaselineRebalancer.rebalanceFrom, List.map_cons, List.filter_cons,
        baselineRow, if_neg h, decide_eq_true_eq, h, if_false]
      exact ih k

/-- `BaselineRebalancer.rebalance`, in key fields. -/
theorem baseline_keys (g : ℕ → ℚ) (pos tgt : List (String × ℚ)) (tv : ℚ) :
    (BaselineRebalancer.rebalance g pos tgt tv).map orderKey
      = ((tgt.map (baselineRow pos tv)).filter
          (fun row => decide (1 < |row.diff|))).map rowKey :=
  baseline_keys_from g pos tv tgt 0

/-- Mapping order preparation over the enumerated filtered rows and then
erasing risk scores is per-row key synthesis. -/
theorem optimized_enum_keys (g : ℕ → ℚ) (l : List Row) :
    ∀ (n : ℕ),
      ((l.enumFrom n).map (fun p =>
          OptimizedRebalancer.prepare_order (g p.1) p.2.symbol p.2.diff
            p.2.current_value p.2.target_value)).map orderKey
        = l.map rowKey := by
  induction l with
  | nil => intro n; rfl
  | cons row rest ih =>
    intro n
    simp only [List.enumFrom, List.map_cons]
    exact List.cons_eq_cons.mpr ⟨rfl, ih (n + 1)⟩

/-- `OptimizedRebalancer.rebalance`, in key fields (no key-uniqueness needed). -/
theorem optimized_keys (g : ℕ → ℚ) (pos tgt : List (String × ℚ)) (tv : ℚ) :
    (OptimizedRebalancer.rebalance g pos tgt tv).map orderKey
      = ((OptimizedRebalancer.rows pos tgt tv).filter
          (fun row => decide (1 < |row.diff|))).map rowKey := by
  unfold OptimizedRebalancer.rebalance
  by_cases h : (OptimizedRebalancer.rows pos tgt tv).all (fun row => decide (|row.diff| ≤ 1))
  · rw [if_pos h]
    have hnil : (OptimizedRebalancer.rows pos tgt tv).filter
        (fun row => decide (1 < |row.diff|)) = [] := by
      rw [List.filter_eq_nil_iff]
      intro a ha
      have := List.all_eq_true.mp h a ha
      simp only [decide_eq_true_eq] at this ⊢
      exact not_lt.mpr this
    rw [hnil]
    rfl
  · rw [if_neg h, List.enum]
    exact optimized_enum_keys g _ 0

/-- With duplicate-free keys (as a Python dict guarantees), the vectorized
phase computes exactly the rows of the sequential loop. -/
theorem rows_eq_map_baselineRow (pos : List (String × ℚ)) (tv : ℚ) :
    ∀ (tgt : List (String × ℚ)), (tgt.map Prod.fst).Nodup →
      OptimizedRebalancer.rows pos tgt tv = tgt.map (baselineRow pos tv) := by
  intro tgt
  induction tgt with
  | nil => intro _; rfl
  | cons e rest ih =>
    intro hnd
    obtain ⟨s, p⟩ := e
    rw [List.map_cons, List.nodup_cons] at hnd
    obtain ⟨hs, hndrest⟩ := hnd
    unfold OptimizedRebalancer.rows
    rw [List.map_cons, List.map_cons, List.map_cons]
    refine List.cons_eq_cons.mpr ⟨?_, ?_⟩
    · simp [baselineRow, dictGet_cons]
    · have hcongr : ∀ s' ∈ rest.map Prod.fst,
          dictGet ((s, p) :: rest) s' = dictGet rest s' := by
        intro s' hs'
        have hne : s' ≠ s := fun hEq => hs (hEq ▸ hs')
        rw [dictGet_cons, if_neg hne]
      calc (rest.map Prod.fst).map (fun s' =>
              let current_value := dictGet pos s'
              let target_pct := dictGet ((s, p) :: rest) s'
              let target_value := tv * target_pct
              Row.mk s' (target_value - current_value) current_value target_value)
          = (rest.map Prod.fst).map (fun s' =>
              let current_value := dictGet pos s'
              let target_pct := dictGet rest s'
              let target_value := tv * target_pct
              Row.mk s' (target_value - current_value) current_value target_value) := by
            apply List.map_congr_left
            intro s' hs'
            simp only [hcongr s' hs']
        _ = rest.map (baselineRow pos tv) := by
            have := ih hndrest
            unfold OptimizedRebalancer.rows at this
            exact this

/-- Claim C9: with duplicate-free target keys, the optimized strategy returns
the same sequence of (symbol, side, quantity, current_value, target_value)
tuples as the baseline — the filtered entries keep the target allocation's
iteration order and `executor.map` preserves input order. -/
theorem sequence_equivalence (g g' : ℕ → ℚ) (pos tgt : List (String × ℚ)) (tv : ℚ)
    (hnd : (tgt.map Prod.fst).Nodup) :
    (BaselineRebalancer.rebalance g pos tgt tv).map orderKey
      = (OptimizedRebalancer.rebalance g' pos tgt tv).map orderKey := by
  rw [baseline_keys, optimized_keys, rows_eq_map_baselineRow pos tv tgt hnd]

/-- Witness for C9 at Scenario A. -/
theorem sequence_equivalence_witness :
    (tgtA.map Prod.fst).Nodup ∧
    (BaselineRebalancer.rebalance gZero posA tgtA 2000).map orderKey
      = (OptimizedRebalancer.rebalance gZero posA tgtA 2000).map orderKey :=
  ⟨by decide, sequence_equivalence gZero gZero posA tgtA 2000 (by decide)⟩

/-- Claim C1: with duplicate-free target keys, the multisets of
(symbol, side, quantity, current_value, target_value) tuples returned by the
two strategies on the same input are equal. -/
theorem multiset_equivalence (g g' : ℕ → ℚ) (pos tgt : List (String × ℚ)) (tv : ℚ)
    (hnd : (tgt.map Prod.fst).Nodup) :
    Multiset.ofList ((BaselineRebalancer.rebalance g pos tgt tv).map orderKey)
      = Multiset.ofList ((OptimizedRebalancer.rebalance g' pos tgt tv).map orderKey) := by
  rw [baseline_keys, optimized_keys, rows_eq_map_baselineRow pos tv tgt hnd]

/-- Witness for C1 at Scenario A. -/
theorem multiset_equivalence_witness :
    (tgtA.map Prod.fst).Nodup ∧
    Multiset.ofList ((BaselineRebalancer.rebalance gZero posA tgtA 2000).map orderKey)
      = Multiset.ofList ((OptimizedRebalancer.rebalance gZero posA tgtA 2000).map orderKey) :=
  ⟨by decide, multiset_equivalence gZero gZero posA tgtA 2000 (by decide)⟩

/-- The spec fold extends any accumulator by exactly the orders the source
loop produces from the same draw index. -/
theorem seqspec_foldl (g : ℕ → ℚ) (pos : List (String × ℚ)) (tv : ℚ) :
    ∀ (tgt : List (String × ℚ)) (acc : List Order) (k : ℕ),
      (tgt.foldl (SeqSpec.step g pos tv) (acc, k)).1
        = acc ++ BaselineRebalancer.rebalanceFrom g pos tv tgt k := by
  intro tgt
  induction tgt with
  | nil => intro acc k; simp [BaselineRebalancer.rebalanceFrom]
  | cons e rest ih =>
    intro acc k
    obtain ⟨s, p⟩ := e
    rw [List.foldl_cons]
    by_cases h : 1 < |tv * p - dictGet pos s|
    · have hstep : SeqSpec.step g pos tv (acc, k) (s, p)
          = (acc ++ [BaselineRebalancer.prepare_order (g k) s (tv * p - dictGet pos s)
              (dictGet pos s) (tv * p)], k + 1) := by
        simp only [SeqSpec.step]
        rw [if_neg (not_le.mpr h)]
      rw [hstep, ih]
      simp only [BaselineRebalancer.rebalanceFrom, if_pos h, List.append_assoc,
        List.singleton_append]
    · have hstep : SeqSpec.step g pos tv (acc, k) (s, p) = (acc, k) := by
        simp only [SeqSpec.step]
        rw [if_pos (not_lt.mp h)]
      rw [hstep, ih]
      simp only [BaselineRebalancer.rebalanceFrom, if_neg h]

/-- Claim C2: the source sequential rebalancer computes, entry by entry in
the target allocation's iteration order, exactly the algorithm the spec
states (get current value with default 0, scale total value by the weight,
skip when the absolute difference is within 1.0, otherwise append the
synthesized order), and returns exactly the accumulated sequence. -/
theorem sequential_algorithm_correct (g : ℕ → ℚ) (pos tgt : List (String × ℚ)) (tv : ℚ) :
    SeqSpec.rebalance g pos tgt tv = BaselineRebalancer.rebalance g pos tgt tv := by
  unfold SeqSpec.rebalance BaselineRebalancer.rebalance
  simpa using seqspec_foldl g pos tv tgt [] 0

/-- Claim C5 counterexample: called directly with an empty target allocation
and total_value 0, both strategies run to completion and return an empty
order batch — no rejection happens and no error value exists anywhere in the
code path. -/
theorem no_invalid_request_rejection :
    BaselineRebalancer.rebalance gZero [] [] 0 = [] ∧
    OptimizedRebalancer.rebalance gZero [] [] 0 = [] :=
  ⟨rfl, rfl⟩

/-- Claim C5 as amended: neither strategy validates its request. An empty
target allocation is processed normally and yields an empty order batch (not
an error), for every positions mapping, draw stream and total_value,
including non-positive total_value. -/
theorem empty_target_returns_empty_batch (g g' : ℕ → ℚ) (pos : List (String × ℚ)) (tv : ℚ) :
    BaselineRebalancer.rebalance g pos [] tv = [] ∧
    OptimizedRebalancer.rebalance g' pos [] tv = [] :=
  ⟨rfl, rfl⟩

/-- Claim C6 counterexample: with baseline and optimized averages both 100
the speedup is 0, below the 25 threshold and reported FAIL, yet the process
exit status is 0 — not non-zero as the claim states — because click's
standalone mode discards the callback's return value. -/
theorem benchmark_exit_status_counterexample :
    speedup 100 100 < 25 ∧ (mainVerdict 100 100).passed = false ∧
    processExitStatus 100 100 = 0 := by
  refine ⟨by norm_num [speedup], ?_, rfl⟩
  have h : ¬ (25 : ℚ) ≤ speedup 100 100 := by norm_num [speedup]
  simp [mainVerdict, h]

/-- Claim C6 as amended: the benchmark computes
`speedup = ((baseline_avg - optimized_avg) / baseline_avg) * 100` and
reports PASS exactly when `speedup ≥ 25`; the `main` callback returns 0
exactly when the threshold is met and 1 otherwise, but click's standalone
mode discards that return value and calls `ctx.exit()`, so the process exit
status is 0 whenever the benchmark completes, on PASS and FAIL alike. -/
theorem benchmark_gate (b o : ℚ) :
    speedup b o = ((b - o) / b) * 100 ∧
    ((mainVerdict b o).passed = true ↔ 25 ≤ speedup b o) ∧
    ((mainVerdict b o).ret = 0 ↔ 25 ≤ speedup b o) ∧
    ((mainVerdict b o).ret = 1 ↔ ¬ 25 ≤ speedup b o) ∧
    processExitStatus b o = 0 := by
  by_cases h : 25 ≤ speedup b o
  · refine ⟨rfl, ?_, ?_, ?_, rfl⟩ <;> simp [mainVerdict, h]
  · refine ⟨rfl, ?_, ?_, ?_, rfl⟩ <;> simp [mainVerdict, h]

/-- Claim C7: on Scenario A (positions {AAA: 1000}, targets
{AAA: 0.5, BBB: 0.5}, total_value 2000) both strategies emit no order for
AAA and exactly one order, a buy of BBB with quantity 10, current_value 0,
target_value 1000 — for every draw stream. -/
theorem scenario_A (g g' : ℕ → ℚ) :
    (BaselineRebalancer.rebalance g posA tgtA 2000).map orderKey
      = [("BBB", "buy", 10, 0, 1000)] ∧
    (OptimizedRebalancer.rebalance g' posA tgtA 2000).map orderKey
      = [("BBB", "buy", 10, 0, 1000)] := by
  constructor
  · rw [baseline_keys]
    simp only [posA, tgtA, List.map_cons, List.map_nil, baselineRow, dictGet_cons, dictGet_nil,
      String.reduceEq, reduceIte]
    norm_num [rowKey, List.filter_cons, List.filter_nil]
  · rw [optimized_keys]
    simp only [posA, tgtA, OptimizedRebalancer.rows, List.map_cons, List.map_nil,
      dictGet_cons, dictGet_nil, String.reduceEq, reduceIte]
    norm_num [rowKey, List.filter_cons, List.filter_nil]

/-- Erasing everything but the first key component commutes with `orderKey`. -/
theorem map_fst_orderKey (l : List Order) :
    (l.map orderKey).map Prod.fst = l.map Order.symbol := by
  rw [List.map_map]
  rfl

/-- Erasing everything but the first key component commutes with `rowKey`. -/
theorem map_fst_rowKey (l : List Row) :
    (l.map rowKey).map Prod.fst = l.map Row.symbol := by
  rw [List.map_map]
  rfl

/-- The symbols of the baseline batch are the symbols of the above-threshold
rows, in order. -/
theorem baseline_symbols (g : ℕ → ℚ) (pos tgt : List (String × ℚ)) (tv : ℚ) :
    (BaselineRebalancer.rebalance g pos tgt tv).map Order.symbol
      = ((tgt.map (baselineRow pos tv)).filter
          (fun row => decide (1 < |row.diff|))).map Row.symbol := by
  rw [← map_fst_orderKey, baseline_keys, map_fst_rowKey]

/-- The symbols of the optimized batch are the symbols of the above-threshold
rows, in order. -/
theorem optimized_symbols (g : ℕ → ℚ) (pos tgt : List (String × ℚ)) (tv : ℚ) :
    (OptimizedRebalancer.rebalance g pos tgt tv).map Order.symbol
      = ((OptimizedRebalancer.rows pos tgt tv).filter
          (fun row => decide (1 < |row.diff|))).map Row.symbol := by
  rw [← map_fst_orderKey, optimized_keys, map_fst_rowKey]

/-- Every vectorized-phase row carries a key of the target allocation. -/
theorem mem_rows_symbol (pos tgt : List (String × ℚ)) (tv : ℚ) (row : Row)
    (h : row ∈ OptimizedRebalancer.rows pos tgt tv) :
    row.symbol ∈ tgt.map Prod.fst := by
  unfold OptimizedRebalancer.rows at h
  simp only [List.mem_map] at h
  obtain ⟨s, hs, rfl⟩ := h
  obtain ⟨e, he, rfl⟩ := hs
  exact List.mem_map_of_mem Prod.fst he

/-- A symbol that is not a target key never appears among the filtered
baseline rows. -/
theorem count_symbols_zero (pos : List (String × ℚ)) (tv : ℚ) (s : String)
    (tgt : List (String × ℚ)) (hs : s ∉ tgt.map Prod.fst) :
    (((tgt.map (baselineRow pos tv)).filter
        (fun row => decide (1 < |row.diff|))).map Row.symbol).count s = 0 := by
  rw [List.count_eq_zero]
  intro hmem
  apply hs
  simp only [List.mem_map, List.mem_filter] at hmem
  obtain ⟨row, ⟨hrow, _⟩, hsym⟩ := hmem
  obtain ⟨e, he, rfl⟩ := hrow
  rw [← hsym]
  exact List.mem_map_of_mem Prod.fst he

/-- With duplicate-free keys, a target entry contributes exactly one
above-threshold row symbol when its diff exceeds the threshold, none
otherwise. -/
theorem count_symbols_filter (pos : List (String × ℚ)) (tv : ℚ) :
    ∀ (tgt : List (String × ℚ)), (tgt.map Prod.fst).Nodup →
      ∀ (s : String) (p : ℚ), (s, p) ∈ tgt →
        (((tgt.map (baselineRow pos tv)).filter
            (fun row => decide (1 < |row.diff|))).map Row.symbol).count s
          = if 1 < |tv * p - dictGet pos s| then 1 else 0 := by
  intro tgt
  induction tgt with
  | nil => intro _ s p h; cases h
  | cons e rest ih =>
    intro hnd s p hmem
    obtain ⟨s0, p0⟩ := e
    rw [List.map_cons, List.nodup_cons] at hnd
    obtain ⟨hs0, hndrest⟩ := hnd
    rw [List.mem_cons] at hmem
    rcases hmem with heq | hmem
    · injection heq with h1 h2
      subst h1
      subst h2
      by_cases h : 1 < |tv * p - dictGet pos s|
      · rw [if_pos h]
        have hpred : (fun row => decide (1 < |row.diff|)) (baselineRow pos tv (s, p)) = true := by
          simp [baselineRow, h]
        rw [List.map_cons, List.filter_cons, if_pos hpred]
        have hsym : (baselineRow pos tv (s, p)).symbol = s := rfl
        rw [List.map_cons, hsym, List.count_cons_self, count_symbols_zero pos tv s rest hs0]
      · rw [if_neg h]
        have hpred : (fun row => decide (1 < |row.diff|)) (baselineRow pos tv (s, p)) = false := by
          simp [baselineRow, h]
        rw [List.map_cons, List.filter_cons, if_neg (by simp [hpred])]
        exact count_symbols_zero pos tv s rest hs0
    · have hsmem : s ∈ rest.map Prod.fst := List.mem_map_of_mem Prod.fst hmem
      have hne : s ≠ s0 := fun hEq => hs0 (hEq ▸ hsmem)
      rw [List.map_cons, List.filter_cons]
      by_cases h0 : (fun row => decide (1 < |row.diff|)) (baselineRow pos tv (s0, p0)) = true
      · rw [if_pos h0, List.map_cons]
        have hsym : (baselineRow pos tv (s0, p0)).symbol = s0 := rfl
        rw [hsym, List.count_cons_of_ne hne]
        exact ih hndrest s p hmem
      · rw [if_neg h0]
        exact ih hndrest s p hmem

/-- Claim C3: for both strategies and duplicate-free target keys, a target
entry whose absolute diff is within the 1.0 threshold contributes no order
for its symbol, and an entry strictly above the threshold contributes exactly
one order for its symbol. -/
theorem threshold_correctness (g g' : ℕ → ℚ) (pos tgt : List (String × ℚ)) (tv : ℚ)
    (hnd : (tgt.map Prod.fst).Nodup) (s : String) (p : ℚ) (hmem : (s, p) ∈ tgt) :
    (|tv * p - dictGet pos s| ≤ 1 →
        ((BaselineRebalancer.rebalance g pos tgt tv).map Order.symbol).count s = 0 ∧
        ((OptimizedRebalancer.rebalance g' pos tgt tv).map Order.symbol).count s = 0) ∧
    (1 < |tv * p - dictGet pos s| →
        ((BaselineRebalancer.rebalance g pos tgt tv).map Order.symbol).count s = 1 ∧
        ((OptimizedRebalancer.rebalance g' pos tgt tv).map Order.symbol).count s = 1) := by
  have hb := count_symbols_filter pos tv tgt hnd s p hmem
  have h1 := baseline_symbols g pos tgt tv
  have h2 : (OptimizedRebalancer.rebalance g' pos tgt tv).map Order.symbol
      = ((tgt.map (baselineRow pos tv)).filter
          (fun row => decide (1 < |row.diff|))).map Row.symbol := by
    rw [optimized_symbols, rows_eq_map_baselineRow pos tv tgt hnd]
  constructor
  · intro hle
    rw [h1, h2, hb, if_neg (not_lt.mpr hle)]
    exact ⟨rfl, rfl⟩
  · intro hgt
    rw [h1, h2, hb, if_pos hgt]
    exact ⟨rfl, rfl⟩

/-- Witness for C3 at Scenario A, above-threshold branch for BBB. -/
theorem threshold_correctness_witness :
    (tgtA.map Prod.fst).Nodup ∧ ("BBB", (1 : ℚ)/2) ∈ tgtA ∧
    ((BaselineRebalancer.rebalance gZero posA tgtA 2000).map Order.symbol).count "BBB" = 1 ∧
    ((OptimizedRebalancer.rebalance gZero posA tgtA 2000).map Order.symbol).count "BBB" = 1 := by
  refine ⟨by decide, by simp [tgtA], ?_⟩
  exact (threshold_correctness gZero gZero posA tgtA 2000 (by decide) "BBB" (1/2)
    (by simp [tgtA])).2
    (by simp only [posA, dictGet_cons, dictGet_nil, String.reduceEq, reduceIte]; norm_num)

/-- Claim C4: for every nonzero diff and generator draw in [0,1), both
synthesizers set side to buy exactly when the diff is positive and sell when
negative, quantity to `abs(diff) / 100`, risk_score to draw × quantity × 0.01
(hence 0 ≤ risk_score < 0.01 × quantity), and copy current_value and
target_value through unchanged. -/
theorem prepare_order_postcondition (r : ℚ) (s : String) (d cv tv : ℚ)
    (hd : d ≠ 0) (hr0 : 0 ≤ r) (hr1 : r < 1) :
    (0 < d → (BaselineRebalancer.prepare_order r s d cv tv).side = "buy" ∧
             (OptimizedRebalancer.prepare_order r s d cv tv).side = "buy") ∧
    (d < 0 → (BaselineRebalancer.prepare_order r s d cv tv).side = "sell" ∧
             (OptimizedRebalancer.prepare_order r s d cv tv).side = "sell") ∧
    (BaselineRebalancer.prepare_order r s d cv tv).quantity = |d| / 100 ∧
    (OptimizedRebalancer.prepare_order r s d cv tv).quantity = |d| / 100 ∧
    (BaselineRebalancer.prepare_order r s d cv tv).risk_score
      = r * (BaselineRebalancer.prepare_order r s d cv tv).quantity * (1 / 100) ∧
    (OptimizedRebalancer.prepare_order r s d cv tv).risk_score
      = r * (OptimizedRebalancer.prepare_order r s d cv tv).quantity * (1 / 100) ∧
    0 ≤ (BaselineRebalancer.prepare_order r s d cv tv).risk_score ∧
    (BaselineRebalancer.prepare_order r s d cv tv).risk_score
      < (1 / 100) * (BaselineRebalancer.prepare_order r s d cv tv).quantity ∧
    0 ≤ (OptimizedRebalancer.prepare_order r s d cv tv).risk_score ∧
    (OptimizedRebalancer.prepare_order r s d cv tv).risk_score
      < (1 / 100) * (OptimizedRebalancer.prepare_order r s d cv tv).quantity ∧
    (BaselineRebalancer.prepare_order r s d cv tv).current_value = cv ∧
    (BaselineRebalancer.prepare_order r s d cv tv).target_value = tv ∧
    (OptimizedRebalancer.prepare_order r s d cv tv).current_value = cv ∧
    (OptimizedRebalancer.prepare_order r s d cv tv).target_value = tv := by
  have habs : 0 < |d| := abs_pos.mpr hd
  have hq : 0 < |d| / 100 := by positivity
  have hnonneg : 0 ≤ r * (|d| / 100) * (1 / 100) :=
    mul_nonneg (mul_nonneg hr0 (le_of_lt hq)) (by norm_num)
  have hstep : r * (|d| / 100) < 1 * (|d| / 100) := mul_lt_mul_of_pos_right hr1 hq
  have hscale : r * (|d| / 100) * (1 / 100) < 1 * (|d| / 100) * (1 / 100) :=
    mul_lt_mul_of_pos_right hstep (by norm_num)
  have hlt : r * (|d| / 100) * (1 / 100) < (1 / 100) * (|d| / 100) := by linarith
  refine ⟨?_, ?_, rfl, rfl, rfl, rfl, hnonneg, hlt, hnonneg, hlt, rfl, rfl, rfl, rfl⟩
  · intro hpos
    constructor <;>
      simp [BaselineRebalancer.prepare_order, OptimizedRebalancer.prepare_order, hpos]
  · intro hneg
    constructor <;>
      simp [BaselineRebalancer.prepare_order, OptimizedRebalancer.prepare_order,
        not_lt.mpr (le_of_lt hneg)]

/-- Witness for C4 at draw 1/2 and diff 200. -/
theorem prepare_order_postcondition_witness :
    ((200 : ℚ) ≠ 0 ∧ (0 : ℚ) ≤ 1/2 ∧ (1 : ℚ)/2 < 1) ∧
    ((BaselineRebalancer.prepare_order (1/2) "XYZ" 200 0 200).side = "buy" ∧
     (OptimizedRebalancer.prepare_order (1/2) "XYZ" 200 0 200).side = "buy") :=
  ⟨⟨by norm_num, by norm_num, by norm_num⟩,
   (prepare_order_postcondition (1/2) "XYZ" 200 0 200 (by norm_num) (by norm_num)
     (by norm_num)).1 (by norm_num)⟩

/-- Claim C8: every order either strategy emits carries a symbol that is a
key of the target allocation; positions held in symbols absent from the
target allocation never generate an order. -/
theorem orders_only_for_target_symbols (g g' : ℕ → ℚ) (pos tgt : List (String × ℚ)) (tv : ℚ) :
    (∀ o ∈ BaselineRebalancer.rebalance g pos tgt tv, o.symbol ∈ tgt.map Prod.fst) ∧
    (∀ o ∈ OptimizedRebalancer.rebalance g' pos tgt tv, o.symbol ∈ tgt.map Prod.fst) := by
  constructor
  · intro o ho
    have h : o.symbol ∈ (BaselineRebalancer.rebalance g pos tgt tv).map Order.symbol :=
      List.mem_map_of_mem Order.symbol ho
    rw [baseline_symbols] at h
    simp only [List.mem_map, List.mem_filter] at h
    obtain ⟨row, ⟨hrow, _⟩, hsym⟩ := h
    obtain ⟨e, he, rfl⟩ := hrow
    rw [← hsym]
    exact List.mem_map_of_mem Prod.fst he
  · intro o ho
    have h : o.symbol ∈ (OptimizedRebalancer.rebalance g' pos tgt tv).map Order.symbol :=
      List.mem_map_of_mem Order.symbol ho
    rw [optimized_symbols] at h
    simp only [List.mem_map, List.mem_filter] at h
    obtain ⟨row, ⟨hrow, _⟩, hsym⟩ := h
    rw [← hsym]
    exact mem_rows_symbol pos tgt tv row hrow

/-- Witness for C8 on a one-entry target allocation. -/
theorem orders_only_for_target_symbols_witness :
    BaselineRebalancer.prepare_order (gZero 0) "BBB" (200 * 1 - 0) 0 (200 * 1)
      ∈ BaselineRebalancer.rebalance gZero [] [("BBB", 1)] 200 ∧
    (BaselineRebalancer.prepare_order (gZero 0) "BBB" (200 * 1 - 0) 0 (200 * 1)).symbol
      ∈ [("BBB", (1 : ℚ))].map Prod.fst := by
  have hmem : BaselineRebalancer.prepare_order (gZero 0) "BBB" (200 * 1 - 0) 0 (200 * 1)
      ∈ BaselineRebalancer.rebalance gZero [] [("BBB", 1)] 200 := by
    simp only [BaselineRebalancer.rebalance, BaselineRebalancer.rebalanceFrom, dictGet_nil]
    rw [if_pos (show (1 : ℚ) < |200 * 1 - 0| by norm_num)]
    exact List.mem_cons_self _ _
  exact ⟨hmem, (orders_only_for_target_symbols gZero gZero [] [("BBB", 1)] 200).1 _ hmem⟩

/-- The sequential loop leaves every state component except the generator
position unchanged. -/
theorem rebalanceFromS_frame (g : ℕ → ℚ) :
    ∀ (tgt : List (String × ℚ)) (st : ProgramState),
      (BaselineRebalancer.rebalanceFromS g tgt st).2.current_positions = st.current_positions ∧
      (BaselineRebalancer.rebalanceFromS g tgt st).2.target_allocation = st.target_allocation ∧
      (BaselineRebalancer.rebalanceFromS g tgt st).2.total_value = st.total_value ∧
      (BaselineRebalancer.rebalanceFromS g tgt st).2.baseline_portfolio_size
        = st.baseline_portfolio_size ∧
      (BaselineRebalancer.rebalanceFromS g tgt st).2.optimized_portfolio_size
        = st.optimized_portfolio_size ∧
      (BaselineRebalancer.rebalanceFromS g tgt st).2.n_workers = st.n_workers := by
  intro tgt
  induction tgt with
  | nil => intro st; exact ⟨rfl, rfl, rfl, rfl, rfl, rfl⟩
  | cons e rest ih =>
    intro st
    obtain ⟨s, p⟩ := e
    by_cases h : 1 < |st.total_value * p - dictGet st.current_positions s|
    · simp only [BaselineRebalancer.rebalanceFromS, if_pos h]
      exact ih { st with rng_index := st.rng_index + 1 }
    · simp only [BaselineRebalancer.rebalanceFromS, if_neg h]
      exact ih st

/-- The stateful sequential loop computes exactly the orders of the pure
embedding, reading draws from the current generator position onward. -/
theorem rebalanceFromS_orders (g : ℕ → ℚ) :
    ∀ (tgt : List (String × ℚ)) (st : ProgramState),
      (BaselineRebalancer.rebalanceFromS g tgt st).1
        = BaselineRebalancer.rebalanceFrom g st.current_positions st.total_value
            tgt st.rng_index := by
  intro tgt
  induction tgt with
  | nil => intro st; rfl
  | cons e rest ih =>
    intro st
    obtain ⟨s, p⟩ := e
    by_cases h : 1 < |st.total_value * p - dictGet st.current_positions s|
    · simp only [BaselineRebalancer.rebalanceFromS, BaselineRebalancer.rebalanceFrom, if_pos h]
      rw [ih { st with rng_index := st.rng_index + 1 }]
    · simp only [BaselineRebalancer.rebalanceFromS, BaselineRebalancer.rebalanceFrom, if_neg h]
      exact ih st

/-- The stateful optimized strategy computes exactly the orders of the pure
embedding, reading draws from the current generator position onward. -/
theorem optimizedS_orders (g : ℕ → ℚ) (st : ProgramState) :
    (OptimizedRebalancer.rebalanceS g st).1
      = OptimizedRebalancer.rebalance (fun k => g (st.rng_index + k))
          st.current_positions st.target_allocation st.total_value := by
  simp only [OptimizedRebalancer.rebalanceS, OptimizedRebalancer.rebalance]
  by_cases h : (OptimizedRebalancer.rows st.current_positions st.target_allocation
      st.total_value).all (fun row => decide (|row.diff| ≤ 1))
  · rw [if_pos h, if_pos h]
  · rw [if_neg h, if_neg h]

/-- Claim C10: neither rebalance call mutates its inputs or its object's
fields: after either call, the positions mapping, the target allocation
mapping, the total value, both portfolio sizes and the worker count are
exactly their pre-call values (only the shared generator position advances). -/
theorem rebalance_frame (g g' : ℕ → ℚ) (st : ProgramState) :
    ((BaselineRebalancer.rebalanceS g st).2.current_positions = st.current_positions ∧
     (BaselineRebalancer.rebalanceS g st).2.target_allocation = st.target_allocation ∧
     (BaselineRebalancer.rebalanceS g st).2.total_value = st.total_value ∧
     (BaselineRebalancer.rebalanceS g st).2.baseline_portfolio_size
       = st.baseline_portfolio_size ∧
     (BaselineRebalancer.rebalanceS g st).2.optimized_portfolio_size
       = st.optimized_portfolio_size ∧
     (BaselineRebalancer.rebalanceS g st).2.n_workers = st.n_workers) ∧
    ((OptimizedRebalancer.rebalanceS g' st).2.current_positions = st.current_positions ∧
     (OptimizedRebalancer.rebalanceS g' st).2.target_allocation = st.target_allocation ∧
     (OptimizedRebalancer.rebalanceS g' st).2.total_value = st.total_value ∧
     (OptimizedRebalancer.rebalanceS g' st).2.baseline_portfolio_size
       = st.baseline_portfolio_size ∧
     (OptimizedRebalancer.rebalanceS g' st).2.optimized_portfolio_size
       = st.optimized_portfolio_size ∧
     (OptimizedRebalancer.rebalanceS g' st).2.n_workers = st.n_workers) := by
  constructor
  · exact rebalanceFromS_frame g st.target_allocation st
  · simp only [OptimizedRebalancer.rebalanceS]
    by_cases h : (OptimizedRebalancer.rows st.current_positions st.target_allocation
        st.total_value).all (fun row => decide (|row.diff| ≤ 1))
    · rw [if_pos h]
      exact ⟨rfl, rfl, rfl, rfl, rfl, rfl⟩
    · rw [if_neg h]
      exact ⟨rfl, rfl, rfl, rfl, rfl, rfl⟩
